import Mathlib

/-!
# Verification of the LangGraph agent loop (`agents_intro/3_langgraph_agent.py`)

A shallow embedding of the routing / tool-calling engine of
`src/agents_intro/3_langgraph_agent.py`:

* the data model (`Message`, `ToolCall`, `AgentState`),
* the graph nodes (`node_llm`, `node_tools`, `node_out_of_domain`),
* the routing predicates (`route_after_llm`, `route_domain_llm`),
* the compiled graph semantics (`loopT`, `run`), and
* the custom tool `nlp_concept_kb_lookup` over `NLP_REFERENCE_KB`.

External collaborators (the Ollama chat model and the registered tool
executables) are abstracted as parameters: the decision oracle is a function
from the current message list to the assistant message it returns, the router
oracle is represented by the parse result of its textual response, and each
tool executable is a function from its arguments to `Except`, where
`Except.error` models a raised Python exception.
-/

namespace LangGraphAgent

/-- Message roles occurring in the program: `SystemMessage`, `HumanMessage`,
assistant responses (`AIMessage` produced by the model) and `ToolMessage`. -/
inductive Role where
  | system
  | user
  | assistant
  | tool
deriving DecidableEq, Repr

/-- One entry of the `tool_calls` list of an assistant message:
`\x7b"name": ..., "args": ..., "id": ...\x7d` as read by `node_tools`
(source lines 186-189). -/
structure ToolCall where
  name : String
  args : List (String × String)
  id : String
deriving DecidableEq, Repr

/-- A LangChain message as the engine observes it: its role, its text
content, its `tool_calls` attribute (empty unless produced by the model with
tool bindings) and, for `ToolMessage`s, the `tool_call_id` linking back to the
request (source lines 197-203 and 211-216). -/
structure Message where
  role : Role
  content : String
  tool_calls : List ToolCall
  tool_call_id : Option String
deriving DecidableEq, Repr

/-- `HumanMessage(content=...)`. -/
def humanMessage (content : String) : Message :=
  ⟨Role.user, content, [], none⟩

/-- `ToolMessage(content=..., name=..., tool_call_id=...)` as built in
`node_tools`; the `name` keyword is carried by the content-producing call
sites, the engine only inspects `content` and `tool_call_id`. -/
def toolMessage (content : String) (id : String) : Message :=
  ⟨Role.tool, content, [], some id⟩

/-- The `AgentState` TypedDict (source lines 135-137): `messages` with the
`add_messages` reducer (list append for fresh messages) and the `steps`
counter. -/
structure AgentState where
  messages : List Message
  steps : Nat
deriving DecidableEq, Repr

/-- A registered tool executable: from the call arguments to either the
string result of `tool_fn.invoke(tool_args)` (`Except.ok`) or a raised
exception (`Except.error`). -/
def Executable : Type := List (String × String) → Except String String

/-- The tool registry `TOOLS_BY_NAME` (source line 171): an exact-match
name lookup, abstracted as a function to `Option` (Python `dict.get`). -/
def Registry : Type := String → Option Executable

/-- The decision oracle behind `llm_with_tools.invoke` in `node_llm`:
from the message list passed to the model to its response message. -/
def Oracle : Type := List Message → Message

/-- `state["messages"][-1]` (source line 183).  Reachable states always have
a nonempty log; on an empty list the total model returns a default inert
message where Python would raise `IndexError`. -/
def lastMessage (s : AgentState) : Message :=
  s.messages.getLastD ⟨Role.system, "", [], none⟩

/-- `node_llm` (source lines 146-165): append the model response to the log
and increment `steps` by one.  The model is called on
`[SYSTEM_MESSAGE] + state["messages"]`; the prepended constant system
preamble is absorbed into the oracle parameter, which receives the state
messages. -/
def node_llm (oracle : Oracle) (s : AgentState) : AgentState :=
  ⟨s.messages ++ [oracle s.messages], s.steps + 1⟩

/-- The body of the `for tool_call in last_message.tool_calls` loop of
`node_tools` (source lines 186-217): one `ToolMessage` per tool call, in
order; an unresolved name yields the `Unknown tool` message and `continue`;
a raised executable propagates the exception (and the partially built
`tool_messages` list is discarded, as the Python exception aborts
`node_tools` before it returns). -/
def execToolCalls (reg : Registry) : List ToolCall → Except String (List Message)
  | [] => Except.ok []
  | tc :: rest =>
    match reg tc.name with
    | none =>
      (execToolCalls reg rest).map
        (fun ms => toolMessage ("Unknown tool: " ++ tc.name) tc.id :: ms)
    | some f =>
      match f tc.args with
      | Except.error e => Except.error e
      | Except.ok r =>
        (execToolCalls reg rest).map (fun ms => toolMessage r tc.id :: ms)

/-- `node_tools` (source lines 173-222): run every tool call of the last
message, append the resulting `ToolMessage`s, increment `steps` by one.
`Except.error` models an exception raised by a tool executable escaping the
node (no state update is committed in that case). -/
def node_tools (reg : Registry) (s : AgentState) : Except String AgentState :=
  (execToolCalls reg (lastMessage s).tool_calls).map
    (fun ms => ⟨s.messages ++ ms, s.steps + 1⟩)

/-- `MAX_STEPS` (source line 228). -/
def MAX_STEPS : Nat := 6

/-- `route_after_llm` (source lines 230-245), with the module constant
`MAX_STEPS` made an explicit parameter: `"end"` once `steps` has reached the
budget or the last message requests no tools, else `"continue"`. -/
def route_after_llm (maxSteps : Nat) (s : AgentState) : String :=
  if s.steps ≥ maxSteps then "end"
  else if (lastMessage s).tool_calls = [] then "end"
  else "continue"

/-- A parsed JSON value, as produced by `json.loads` in `route_domain_llm`. -/
inductive PyJson where
  | null
  | bool (b : Bool)
  | num (n : Int)
  | str (s : String)
  | arr (elems : List PyJson)
  | obj (fields : List (String × PyJson))

/-- Python `==` between a parsed JSON value and a string literal: true
exactly when the value is that string (any non-string compares unequal). -/
def pyEqStr (v : PyJson) (t : String) : Bool :=
  match v with
  | PyJson.str s => s = t
  | _ => false

/-- First-match association lookup, Python `dict.get` on the insertion-order
field list of a parsed JSON object. -/
def jsonGet (fields : List (String × PyJson)) (key : String) : Option PyJson :=
  match fields with
  | [] => none
  | (k, v) :: rest => if k = key then some v else jsonGet rest key

/-- `route_domain_llm` (source lines 259-288), abstracted over the parse
result of the router oracle response: `none` models `json.loads` raising
(invalid JSON); a parsed non-object makes `payload.get` raise
`AttributeError`, also caught by the `except` and answered `"in_domain"`;
only a parsed object whose `route` field is the string `out_of_domain`
yields `"out_of_domain"`. -/
def route_domain_llm (parsed : Option PyJson) : String :=
  match parsed with
  | none => "in_domain"
  | some (PyJson.obj fields) =>
    match jsonGet fields "route" with
    | some v => if pyEqStr v "out_of_domain" then "out_of_domain" else "in_domain"
    | none => "in_domain"
  | some _ => "in_domain"

/-- The fixed refusal message built in `node_out_of_domain`
(source lines 298-301): a `SystemMessage`. -/
def outOfDomainMessage : Message :=
  ⟨Role.system,
   "The question is out of scope. I can help with NLP concepts (Transformer, attention, tokenization, BERT, etc.). " ++
   "Please rephrase your question within that scope.",
   [], none⟩

/-- `node_out_of_domain` (source lines 291-302): append the fixed refusal
message and increment `steps` by one. -/
def node_out_of_domain (s : AgentState) : AgentState :=
  ⟨s.messages ++ [outOfDomainMessage], s.steps + 1⟩

/-- The named graph nodes, for execution traces. -/
inductive Node where
  | llm
  | tools
  | out_of_domain
deriving DecidableEq, Repr

theorem node_tools_steps {reg : Registry} {s s' : AgentState}
    (h : node_tools reg s = Except.ok s') : s'.steps = s.steps + 1 := by
  unfold node_tools at h
  cases hex : execToolCalls reg (lastMessage s).tool_calls with
  | error e => rw [hex] at h; simp [Except.map] at h
  | ok ms => rw [hex] at h; simp [Except.map] at h; rw [← h]

/-- The `llm -> (continue: tools -> llm | end: END)` loop of the compiled
graph (source lines 330-336), returning the final state (or the propagated
exception) together with the trace of nodes executed.  Entered at the `llm`
node. -/
def loopT (maxSteps : Nat) (oracle : Oracle) (reg : Registry)
    (s : AgentState) : Except String AgentState × List Node :=
  let s1 := node_llm oracle s
  if hc : route_after_llm maxSteps s1 = "continue" then
    match ht : node_tools reg s1 with
    | Except.error e => (Except.error e, [Node.llm, Node.tools])
    | Except.ok s2 =>
      let (r, tr) := loopT maxSteps oracle reg s2
      (r, Node.llm :: Node.tools :: tr)
  else
    (Except.ok s1, [Node.llm])
termination_by maxSteps - s.steps
decreasing_by
  have h1 : (node_llm oracle s).steps = s.steps + 1 := rfl
  have h2 : s2.steps = (node_llm oracle s).steps + 1 := node_tools_steps ht
  have h3 : ¬ (node_llm oracle s).steps ≥ maxSteps := by
    intro hge
    unfold route_after_llm at hc
    rw [if_pos hge] at hc
    exact absurd hc (by decide)
  omega

/-- The compiled graph (source lines 308-338) invoked as in the `__main__`
driver (source lines 392-394): initial state `[HumanMessage(user_text)]`
with `steps = 0`; the conditional entry edge runs the domain router first
(its oracle response is abstracted by its parse result `routerParsed`),
then either the single refusal node or the main loop. -/
def run (maxSteps : Nat) (routerParsed : Option PyJson) (oracle : Oracle)
    (reg : Registry) (userText : String) : Except String AgentState × List Node :=
  let init : AgentState := ⟨[humanMessage userText], 0⟩
  if route_domain_llm routerParsed = "out_of_domain" then
    (Except.ok (node_out_of_domain init), [Node.out_of_domain])
  else
    loopT maxSteps oracle reg init

/-! ## The custom tool `nlp_concept_kb_lookup` (source lines 80-129)

Python strings are modelled as lists of Unicode code points (`List Nat`).
`str.lower` and `str.strip` are modelled on the ASCII fragment
(the knowledge-base keys and the behaviour under scrutiny are ASCII). -/

/-- The code points of a Lean string literal, to write Python strings. -/
def s2c (s : String) : List Nat := s.toList.map Char.toNat

/-- `str.lower` on one code point (ASCII fragment): uppercase letters
`A`-`Z` (65-90) shift by 32, everything else is unchanged. -/
def pyLowerChar (c : Nat) : Nat := if 65 ≤ c ∧ c ≤ 90 then c + 32 else c

/-- `str.lower` (ASCII fragment). -/
def pyLower (s : List Nat) : List Nat := s.map pyLowerChar

/-- `str.isspace` on one code point (ASCII fragment): tab through carriage
return (9-13), the separator controls (28-31) and space (32). -/
def isPySpace (c : Nat) : Bool := decide ((9 ≤ c ∧ c ≤ 13) ∨ (28 ≤ c ∧ c ≤ 32))

/-- `str.lstrip()`. -/
def pyLStrip (s : List Nat) : List Nat := s.dropWhile isPySpace

/-- `str.rstrip()`. -/
def pyRStrip (s : List Nat) : List Nat := (s.reverse.dropWhile isPySpace).reverse

/-- `str.strip()`: whitespace removed from both ends. -/
def pyStrip (s : List Nat) : List Nat := pyRStrip (pyLStrip s)

/-- One value of the `NLP_REFERENCE_KB` dict (source lines 80-109): the five
fields every entry carries; `year` is `None` for the `tokenization` entry. -/
structure KBEntry where
  definition : String
  key_paper : String
  year : Option Nat
  keywords : List String
  category : String
deriving DecidableEq, Repr

/-- `NLP_REFERENCE_KB` (source lines 80-109) as an insertion-ordered
association list keyed by the code points of the concept name. -/
def NLP_REFERENCE_KB : List (List Nat × KBEntry) :=
  [(s2c "transformer",
    ⟨"A neural architecture built around self-attention for sequence modeling.",
     "Attention Is All You Need", some 2017,
     ["self-attention", "encoder-decoder", "parallelization"],
     "sequence modeling architecture"⟩),
   (s2c "self-attention",
    ⟨"An attention mechanism where each token attends to all tokens in the same sequence.",
     "Attention Is All You Need", some 2017,
     ["query", "key", "value", "attention weights"],
     "attention mechanism"⟩),
   (s2c "bert",
    ⟨"A bidirectional Transformer encoder model pretrained with masked language modeling.",
     "BERT: Pre-training of Deep Bidirectional Transformers for Language Understanding",
     some 2018,
     ["masked language modeling", "fine-tuning", "pretraining"],
     "encoder-only transformer"⟩),
   (s2c "tokenization",
    ⟨"The process of splitting text into units (tokens) used by NLP models.",
     "N/A", none,
     ["subword", "BPE", "WordPiece"],
     "preprocessing"⟩)]

/-- First-match lookup in the knowledge base (`key in NLP_REFERENCE_KB`
followed by `NLP_REFERENCE_KB[key]`). -/
def kbGet : List (List Nat × KBEntry) → List Nat → Option KBEntry
  | [], _ => none
  | (k, v) :: rest, key => if k = key then some v else kbGet rest key

/-- A JSON string literal for the KB text values (none needs escaping). -/
def jsonQuote (s : String) : String := "\"" ++ s ++ "\""

/-- `json.dumps` of the keyword list. -/
def jsonDumpsKeywords (ks : List String) : String :=
  "[" ++ String.intercalate ", " (ks.map jsonQuote) ++ "]"

/-- `json.dumps(NLP_REFERENCE_KB[key])`: fields in insertion order with the
default separators. -/
def jsonDumpsEntry (e : KBEntry) : String :=
  "\x7b\"definition\": " ++ jsonQuote e.definition ++
  ", \"key_paper\": " ++ jsonQuote e.key_paper ++
  ", \"year\": " ++ (match e.year with | some n => toString n | none => "null") ++
  ", \"keywords\": " ++ jsonDumpsKeywords e.keywords ++
  ", \"category\": " ++ jsonQuote e.category ++ "\x7d"

/-- `json.dumps(\x7b"error": "concept not found."\x7d)`. -/
def conceptNotFound : String := "\x7b\"error\": \"concept not found.\"\x7d"

/-- `nlp_concept_kb_lookup` (source lines 111-129): normalize the term with
`term.lower().strip()`, look it up, return the JSON dump of the entry or the
`concept not found` error JSON. -/
def nlp_concept_kb_lookup (term : List Nat) : String :=
  let key := pyStrip (pyLower term)
  match kbGet NLP_REFERENCE_KB key with
  | some e => jsonDumpsEntry e
  | none => conceptNotFound

/-! ## Concrete oracles, registries and states used as test inputs -/

/-- An oracle that always answers without requesting any tool. -/
def noToolOracle : Oracle := fun _ => ⟨Role.assistant, "All done.", [], none⟩

/-- An oracle that requests one tool call on every invocation
(the "oracle never stops" scenario). -/
def alwaysToolOracle : Oracle :=
  fun _ => ⟨Role.assistant, "", [⟨"ghost", [], "call_1"⟩], none⟩

/-- A registry resolving no name at all. -/
def emptyRegistry : Registry := fun _ => none

/-- An executable whose result is a fixed string. -/
def echoExec : Executable := fun _ => Except.ok "echo result"

/-- A registry resolving exactly the name `echo`. -/
def echoRegistry : Registry :=
  fun n => if n = "echo" then some echoExec else none

/-- An executable that always raises. -/
def boomExec : Executable := fun _ => Except.error "kaboom"

/-- A registry resolving exactly the name `boom`, to an executable that
raises. -/
def boomRegistry : Registry :=
  fun n => if n = "boom" then some boomExec else none

/-- An oracle that requests one `boom` tool call on every invocation. -/
def boomOracle : Oracle :=
  fun _ => ⟨Role.assistant, "", [⟨"boom", [], "b1"⟩], none⟩

/-- A state whose last message carries two tool calls: one resolvable
(`echo`) and one unknown (`ghost`). -/
def stTwoCalls : AgentState :=
  ⟨[⟨Role.assistant, "", [⟨"echo", [], "i1"⟩, ⟨"ghost", [], "i2"⟩], none⟩], 5⟩

/-- The state `node_tools echoRegistry stTwoCalls` produces: both
observations appended in request order, `steps` incremented once. -/
def stTwoCallsOut : AgentState :=
  ⟨[⟨Role.assistant, "", [⟨"echo", [], "i1"⟩, ⟨"ghost", [], "i2"⟩], none⟩,
    toolMessage "echo result" "i1", toolMessage "Unknown tool: ghost" "i2"], 6⟩

/-- A parsed router response classifying the question `out_of_domain`. -/
def outParsed : Option PyJson :=
  some (PyJson.obj [("route", PyJson.str "out_of_domain")])

/-! ## Helper lemmas about the engine -/

theorem getLastD_append_singleton (l : List Message) (a d : Message) :
    (l ++ [a]).getLastD d = a := by
  induction l generalizing d with
  | nil => rfl
  | cons b t ih => simp only [List.cons_append, List.getLastD_cons, ih]

theorem lastMessage_node_llm (o : Oracle) (s : AgentState) :
    lastMessage (node_llm o s) = o s.messages := by
  unfold lastMessage node_llm
  exact getLastD_append_singleton _ _ _

theorem node_llm_steps (oracle : Oracle) (s : AgentState) :
    (node_llm oracle s).steps = s.steps + 1 := rfl

theorem node_tools_ok {reg : Registry} {s s' : AgentState}
    (h : node_tools reg s = Except.ok s') :
    ∃ ms, execToolCalls reg (lastMessage s).tool_calls = Except.ok ms ∧
      s' = ⟨s.messages ++ ms, s.steps + 1⟩ := by
  unfold node_tools at h
  cases hex : execToolCalls reg (lastMessage s).tool_calls with
  | error e => rw [hex] at h; simp [Except.map] at h
  | ok ms =>
    rw [hex] at h
    simp only [Except.map, Except.ok.injEq] at h
    exact ⟨ms, rfl, h.symm⟩

theorem route_after_llm_continue {m : Nat} {s : AgentState}
    (h : route_after_llm m s = "continue") :
    s.steps < m ∧ (lastMessage s).tool_calls ≠ [] := by
  unfold route_after_llm at h
  by_cases h1 : s.steps ≥ m
  · rw [if_pos h1] at h; exact absurd h (by decide)
  · rw [if_neg h1] at h
    by_cases h2 : (lastMessage s).tool_calls = []
    · rw [if_pos h2] at h; exact absurd h (by decide)
    · exact ⟨by omega, h2⟩

theorem loopT_end {m : Nat} {o : Oracle} {r : Registry} {s : AgentState}
    (h : route_after_llm m (node_llm o s) ≠ "continue") :
    loopT m o r s = (Except.ok (node_llm o s), [Node.llm]) := by
  rw [loopT]
  rw [dif_neg h]

theorem loopT_continue_error {m : Nat} {o : Oracle} {r : Registry} {s : AgentState}
    {e : String}
    (hcont : route_after_llm m (node_llm o s) = "continue")
    (herr : node_tools r (node_llm o s) = Except.error e) :
    loopT m o r s = (Except.error e, [Node.llm, Node.tools]) := by
  rw [loopT]
  rw [dif_pos hcont]
  split <;> rename_i heq <;> rw [herr] at heq
  · cases heq; rfl
  · cases heq

theorem loopT_continue_ok {m : Nat} {o : Oracle} {r : Registry} {s s2 : AgentState}
    (hcont : route_after_llm m (node_llm o s) = "continue")
    (hok : node_tools r (node_llm o s) = Except.ok s2) :
    loopT m o r s =
      ((loopT m o r s2).1, Node.llm :: Node.tools :: (loopT m o r s2).2) := by
  rw [loopT]
  rw [dif_pos hcont]
  split <;> rename_i heq <;> rw [hok] at heq
  · cases heq
  · cases heq; rfl

theorem loopT_trace_head (m : Nat) (o : Oracle) (r : Registry) (s : AgentState) :
    (loopT m o r s).2.head? = some Node.llm := by
  by_cases hcont : route_after_llm m (node_llm o s) = "continue"
  · cases hnt : node_tools r (node_llm o s) with
    | error e => rw [loopT_continue_error hcont hnt]; rfl
    | ok s2 => rw [loopT_continue_ok hcont hnt]; rfl
  · rw [loopT_end hcont]; rfl

theorem loopT_ok_steps_aux (m : Nat) (o : Oracle) (r : Registry) :
    ∀ n : Nat, ∀ s sf : AgentState, m - s.steps = n → s.steps ≤ m →
      (loopT m o r s).1 = Except.ok sf → sf.steps ≤ m + 1 := by
  intro n
  induction n using Nat.strong_induction_on with
  | _ n ih =>
    intro s sf hn hle hok
    by_cases hcont : route_after_llm m (node_llm o s) = "continue"
    · cases hnt : node_tools r (node_llm o s) with
      | error e => rw [loopT_continue_error hcont hnt] at hok; cases hok
      | ok s2 =>
        rw [loopT_continue_ok hcont hnt] at hok
        have h1 := (route_after_llm_continue hcont).1
        have h2 := node_tools_steps hnt
        have h3 := node_llm_steps o s
        exact ih (m - s2.steps) (by omega) s2 sf rfl (by omega) hok
    · rw [loopT_end hcont] at hok
      simp only [Except.ok.injEq] at hok
      have h3 := node_llm_steps o s
      rw [← hok]
      omega

theorem loopT_ok_steps {m : Nat} {o : Oracle} {r : Registry} {s sf : AgentState}
    (hle : s.steps ≤ m) (hok : (loopT m o r s).1 = Except.ok sf) :
    sf.steps ≤ m + 1 :=
  loopT_ok_steps_aux m o r (m - s.steps) s sf rfl hle hok

theorem loopT_ok_trace_steps_aux (m : Nat) (o : Oracle) (r : Registry) :
    ∀ n : Nat, ∀ s sf : AgentState, m - s.steps = n →
      (loopT m o r s).1 = Except.ok sf →
      sf.steps = s.steps + (loopT m o r s).2.length := by
  intro n
  induction n using Nat.strong_induction_on with
  | _ n ih =>
    intro s sf hn hok
    by_cases hcont : route_after_llm m (node_llm o s) = "continue"
    · cases hnt : node_tools r (node_llm o s) with
      | error e => rw [loopT_continue_error hcont hnt] at hok; cases hok
      | ok s2 =>
        rw [loopT_continue_ok hcont hnt] at hok
        rw [loopT_continue_ok hcont hnt]
        have h1 := (route_after_llm_continue hcont).1
        have h2 := node_tools_steps hnt
        have h3 := node_llm_steps o s
        have h4 := ih (m - s2.steps) (by omega) s2 sf rfl hok
        simp only [List.length_cons]
        omega
    · rw [loopT_end hcont] at hok
      rw [loopT_end hcont]
      simp only [Except.ok.injEq] at hok
      have h3 := node_llm_steps o s
      rw [← hok]
      simp only [List.length_cons, List.length_nil]
      omega

/-- `sf.steps = s.steps + (number of nodes executed)`: each node execution of
the main loop increments `steps` by exactly one. -/
theorem loopT_ok_trace_steps {m : Nat} {o : Oracle} {r : Registry} {s sf : AgentState}
    (hok : (loopT m o r s).1 = Except.ok sf) :
    sf.steps = s.steps + (loopT m o r s).2.length :=
  loopT_ok_trace_steps_aux m o r (m - s.steps) s sf rfl hok

/-! ## Helper lemmas about the Python string operations -/

theorem pyLowerChar_idem (c : Nat) : pyLowerChar (pyLowerChar c) = pyLowerChar c := by
  unfold pyLowerChar
  by_cases h : 65 ≤ c ∧ c ≤ 90
  · rw [if_pos h]
    rw [if_neg (by omega)]
  · rw [if_neg h]
    rw [if_neg h]

theorem isPySpace_pyLowerChar (c : Nat) : isPySpace (pyLowerChar c) = isPySpace c := by
  unfold isPySpace pyLowerChar
  by_cases h : 65 ≤ c ∧ c ≤ 90
  · rw [if_pos h]
    simp only [decide_eq_decide]
    omega
  · rw [if_neg h]

theorem isPySpace_comp_pyLowerChar : isPySpace ∘ pyLowerChar = isPySpace :=
  funext isPySpace_pyLowerChar

theorem pyLower_idem (s : List Nat) : pyLower (pyLower s) = pyLower s := by
  unfold pyLower
  rw [List.map_map]
  exact List.map_congr_left (fun a _ => pyLowerChar_idem a)

theorem pyLower_pyLStrip (s : List Nat) :
    pyLower (pyLStrip s) = pyLStrip (pyLower s) := by
  unfold pyLower pyLStrip
  rw [List.dropWhile_map, isPySpace_comp_pyLowerChar]

theorem pyLower_pyRStrip (s : List Nat) :
    pyLower (pyRStrip s) = pyRStrip (pyLower s) := by
  unfold pyLower pyRStrip
  rw [← List.map_reverse, List.dropWhile_map, isPySpace_comp_pyLowerChar,
    List.map_reverse]

theorem pyLower_pyStrip (s : List Nat) :
    pyLower (pyStrip s) = pyStrip (pyLower s) := by
  unfold pyStrip
  rw [pyLower_pyRStrip, pyLower_pyLStrip]

theorem dropWhile_self_idem (p : Nat → Bool) (l : List Nat) :
    (l.dropWhile p).dropWhile p = l.dropWhile p := by
  induction l with
  | nil => rfl
  | cons a t ih =>
    rw [List.dropWhile_cons]
    by_cases h : p a
    · rw [if_pos h]; exact ih
    · rw [if_neg h]
      exact List.dropWhile_cons_of_neg (by simpa using h)

theorem pyLStrip_idem (s : List Nat) : pyLStrip (pyLStrip s) = pyLStrip s :=
  dropWhile_self_idem isPySpace s

theorem pyRStrip_idem (s : List Nat) : pyRStrip (pyRStrip s) = pyRStrip s := by
  unfold pyRStrip
  rw [List.reverse_reverse, dropWhile_self_idem]

theorem dropWhile_length_le (p : Nat → Bool) (l : List Nat) :
    (l.dropWhile p).length ≤ l.length := by
  induction l with
  | nil => simp
  | cons a t ih =>
    rw [List.dropWhile_cons]
    by_cases h : p a
    · rw [if_pos h]; simp; omega
    · rw [if_neg h]

theorem pyLStrip_pyRStrip (s : List Nat) (h : pyLStrip s = s) :
    pyLStrip (pyRStrip s) = pyRStrip s := by
  cases s with
  | nil => rfl
  | cons c t =>
    have hc : isPySpace c = false := by
      unfold pyLStrip at h
      rw [List.dropWhile_cons] at h
      by_cases hpc : isPySpace c
      · rw [if_pos hpc] at h
        have h1 := dropWhile_length_le isPySpace t
        have h2 := congrArg List.length h
        simp at h2
        omega
      · simpa using hpc
    unfold pyRStrip pyLStrip
    rw [List.reverse_cons, List.dropWhile_append]
    by_cases he : (t.reverse.dropWhile isPySpace).isEmpty
    · rw [if_pos he]
      simp [hc]
    · rw [if_neg he]
      rw [List.reverse_append]
      simp [hc]

theorem pyStrip_idem (s : List Nat) : pyStrip (pyStrip s) = pyStrip s := by
  unfold pyStrip
  rw [pyLStrip_pyRStrip (pyLStrip s) (pyLStrip_idem s), pyRStrip_idem]

/-- The key normalization `term.lower().strip()` of `nlp_concept_kb_lookup`
is idempotent. -/
theorem pyNormalize_idem (t : List Nat) :
    pyStrip (pyLower (pyStrip (pyLower t))) = pyStrip (pyLower t) := by
  rw [pyLower_pyStrip, pyLower_idem, pyStrip_idem]

/-! ## Claim C1 -/

/-- C1, counterexample to the claim as stated: with the code's
`MAX_STEPS = 6` and an oracle that requests a tool call on every Decision
Step, the run reaches a terminal state whose `step_count` is `7`, which
exceeds `max_steps = 6`.  The budget check `steps >= MAX_STEPS` in
`route_after_llm` runs only after `node_llm` has already incremented
`steps`, so the final value can overshoot the budget by one. -/
theorem claim_C1_counterexample :
    (run MAX_STEPS none alwaysToolOracle emptyRegistry "hi").1.map AgentState.steps
      = Except.ok 7 ∧ ¬ (7 ≤ MAX_STEPS) := by
  constructor
  · simp [run, route_domain_llm, MAX_STEPS, loopT.eq_def, node_llm, node_tools,
      execToolCalls, route_after_llm, lastMessage, alwaysToolOracle, emptyRegistry,
      humanMessage, toolMessage, Except.map]
  · decide

/-- C1 (amended): for every run that reaches a terminal state, the final
value of `step_count` is at most `max_steps + 1`. -/
theorem claim_C1 (maxSteps : Nat) (parsed : Option PyJson) (oracle : Oracle)
    (reg : Registry) (u : String) (sf : AgentState)
    (h : (run maxSteps parsed oracle reg u).1 = Except.ok sf) :
    sf.steps ≤ maxSteps + 1 := by
  simp only [run] at h
  by_cases hr : route_domain_llm parsed = "out_of_domain"
  · rw [if_pos hr] at h
    simp only [Except.ok.injEq] at h
    rw [← h]
    simp [node_out_of_domain]
  · rw [if_neg hr] at h
    exact loopT_ok_steps (by simp) h

/-- C1 witness: a concrete terminal run to which the amended bound applies. -/
theorem claim_C1_witness :
    (run MAX_STEPS none noToolOracle emptyRegistry "q").1
      = Except.ok ⟨[humanMessage "q", ⟨Role.assistant, "All done.", [], none⟩], 1⟩ ∧
    (⟨[humanMessage "q", ⟨Role.assistant, "All done.", [], none⟩], 1⟩ : AgentState).steps
      ≤ MAX_STEPS + 1 := by
  have h : (run MAX_STEPS none noToolOracle emptyRegistry "q").1
      = Except.ok ⟨[humanMessage "q", ⟨Role.assistant, "All done.", [], none⟩], 1⟩ := by
    simp [run, route_domain_llm, MAX_STEPS, loopT.eq_def, node_llm, node_tools,
      execToolCalls, route_after_llm, lastMessage, noToolOracle, emptyRegistry,
      humanMessage, toolMessage, Except.map]
  exact ⟨h, claim_C1 MAX_STEPS none noToolOracle emptyRegistry "q" _ h⟩

/-! ## Claim C2 -/

/-- C2, counterexample to the claim as stated: with `max_steps = 2` and an
oracle that requests an action on every Decision Step, the run terminates at
`step_count = 3`, not `2`: the second Decision Step itself increments
`steps` from `2` to `3` before the budget check fires. -/
theorem claim_C2_counterexample :
    (run 2 none alwaysToolOracle emptyRegistry "hi").1.map AgentState.steps
      = Except.ok 3 ∧ (3 : Nat) ≠ 2 := by
  constructor
  · simp [run, route_domain_llm, loopT.eq_def, node_llm, node_tools,
      execToolCalls, route_after_llm, lastMessage, alwaysToolOracle, emptyRegistry,
      humanMessage, toolMessage, Except.map]
  · decide

/-- C2 (amended): with `max_steps = 2`, for any oracle that on every Decision
Step returns a message containing at least one requested action, a run that
terminates does so at `step_count = 3` after the node sequence
`llm, tools, llm` — so the Action Executor is not invoked after the second
Decision Step — and the second Decision Step's message is the run's answer
(the last message of the log). -/
theorem claim_C2 (parsed : Option PyJson) (oracle : Oracle) (reg : Registry)
    (u : String) (sf : AgentState) (tr : List Node)
    (hr : route_domain_llm parsed = "in_domain")
    (ho : ∀ msgs, (oracle msgs).tool_calls ≠ [])
    (h : run 2 parsed oracle reg u = (Except.ok sf, tr)) :
    sf.steps = 3 ∧ tr = [Node.llm, Node.tools, Node.llm] ∧
    sf.messages.getLast? = some (oracle sf.messages.dropLast) := by
  simp only [run] at h
  rw [if_neg (by rw [hr]; decide)] at h
  have hcont : route_after_llm 2 (node_llm oracle ⟨[humanMessage u], 0⟩) = "continue" := by
    unfold route_after_llm
    rw [if_neg (by simp [node_llm])]
    rw [if_neg (by rw [lastMessage_node_llm]; exact ho _)]
  cases hnt : node_tools reg (node_llm oracle ⟨[humanMessage u], 0⟩) with
  | error e =>
    rw [loopT_continue_error hcont hnt] at h
    simp at h
  | ok s2 =>
    rw [loopT_continue_ok hcont hnt] at h
    have hs2 : s2.steps = 2 := by
      have h1 := node_tools_steps hnt
      have h2 := node_llm_steps oracle (⟨[humanMessage u], 0⟩ : AgentState)
      simp at h2
      omega
    have hend : route_after_llm 2 (node_llm oracle s2) ≠ "continue" := by
      unfold route_after_llm
      rw [if_pos (by have := node_llm_steps oracle s2; omega)]
      decide
    rw [loopT_end hend] at h
    have h1 : Except.ok (node_llm oracle s2) = Except.ok sf := congrArg Prod.fst h
    have h2 : tr = [Node.llm, Node.tools, Node.llm] := (congrArg Prod.snd h).symm
    simp only [Except.ok.injEq] at h1
    refine ⟨?_, h2, ?_⟩
    · rw [← h1]
      have := node_llm_steps oracle s2
      omega
    · rw [← h1]
      show (s2.messages ++ [oracle s2.messages]).getLast?
        = some (oracle ((s2.messages ++ [oracle s2.messages]).dropLast))
      rw [List.dropLast_concat, List.getLast?_concat]

/-- C2 witness: a concrete always-requesting oracle reaching the
`step_count = 3` terminal state through `llm, tools, llm`. -/
theorem claim_C2_witness :
    run 2 none alwaysToolOracle emptyRegistry "hi"
      = (Except.ok ⟨[humanMessage "hi",
          ⟨Role.assistant, "", [⟨"ghost", [], "call_1"⟩], none⟩,
          toolMessage "Unknown tool: ghost" "call_1",
          ⟨Role.assistant, "", [⟨"ghost", [], "call_1"⟩], none⟩], 3⟩,
         [Node.llm, Node.tools, Node.llm]) ∧
    (⟨[humanMessage "hi",
        ⟨Role.assistant, "", [⟨"ghost", [], "call_1"⟩], none⟩,
        toolMessage "Unknown tool: ghost" "call_1",
        ⟨Role.assistant, "", [⟨"ghost", [], "call_1"⟩], none⟩], 3⟩ : AgentState).steps = 3 := by
  have h : run 2 none alwaysToolOracle emptyRegistry "hi"
      = (Except.ok ⟨[humanMessage "hi",
          ⟨Role.assistant, "", [⟨"ghost", [], "call_1"⟩], none⟩,
          toolMessage "Unknown tool: ghost" "call_1",
          ⟨Role.assistant, "", [⟨"ghost", [], "call_1"⟩], none⟩], 3⟩,
         [Node.llm, Node.tools, Node.llm]) := by
    simp [run, route_domain_llm, loopT.eq_def, node_llm, node_tools,
      execToolCalls, route_after_llm, lastMessage, alwaysToolOracle, emptyRegistry,
      humanMessage, toolMessage, Except.map]
  exact ⟨h, (claim_C2 none alwaysToolOracle emptyRegistry "hi" _ _ rfl
    (fun _ => by simp [alwaysToolOracle]) h).1⟩

/-! ## Claim C3 -/

/-- C3: `step_count` is non-decreasing along a run — each Decision Step
execution (`node_llm`) increments it by exactly 1; each Action Executor
execution (`node_tools`) increments it by exactly 1, whatever the number of
tool calls in the round; and over a whole terminal run the final
`step_count` equals the number of nodes executed. -/
theorem claim_C3 :
    (∀ (oracle : Oracle) (s : AgentState), (node_llm oracle s).steps = s.steps + 1) ∧
    (∀ (reg : Registry) (s s' : AgentState), node_tools reg s = Except.ok s' →
      s'.steps = s.steps + 1) ∧
    (∀ (maxSteps : Nat) (parsed : Option PyJson) (oracle : Oracle) (reg : Registry)
        (u : String) (sf : AgentState),
      (run maxSteps parsed oracle reg u).1 = Except.ok sf →
      sf.steps = (run maxSteps parsed oracle reg u).2.length) := by
  refine ⟨fun o s => rfl, fun reg s s' h => node_tools_steps h, ?_⟩
  intro m parsed o r u sf h
  simp only [run] at h ⊢
  by_cases hr : route_domain_llm parsed = "out_of_domain"
  · rw [if_pos hr] at h ⊢
    simp only [Except.ok.injEq] at h
    rw [← h]
    rfl
  · rw [if_neg hr] at h ⊢
    simpa using loopT_ok_trace_steps h

/-- C3 witness: the three parts applied at concrete inputs. -/
theorem claim_C3_witness :
    (node_llm noToolOracle ⟨[humanMessage "q"], 0⟩).steps = 0 + 1 ∧
    stTwoCallsOut.steps = stTwoCalls.steps + 1 ∧
    (⟨[humanMessage "q", ⟨Role.assistant, "All done.", [], none⟩], 1⟩ : AgentState).steps
      = (run MAX_STEPS none noToolOracle emptyRegistry "q").2.length := by
  have h : (run MAX_STEPS none noToolOracle emptyRegistry "q").1
      = Except.ok ⟨[humanMessage "q", ⟨Role.assistant, "All done.", [], none⟩], 1⟩ := by
    simp [run, route_domain_llm, MAX_STEPS, loopT.eq_def, node_llm, node_tools,
      execToolCalls, route_after_llm, lastMessage, noToolOracle, emptyRegistry,
      humanMessage, toolMessage, Except.map]
  exact ⟨claim_C3.1 noToolOracle ⟨[humanMessage "q"], 0⟩,
    claim_C3.2.1 echoRegistry stTwoCalls stTwoCallsOut rfl,
    claim_C3.2.2 MAX_STEPS none noToolOracle emptyRegistry "q" _ h⟩

/-! ## Claim C4 -/

theorem execToolCalls_ids (reg : Registry) :
    ∀ (tcs : List ToolCall) (ms : List Message), execToolCalls reg tcs = Except.ok ms →
      ms.map Message.tool_call_id = tcs.map (fun tc => some tc.id) ∧
      ∀ x ∈ ms, x.role = Role.tool := by
  intro tcs
  induction tcs with
  | nil =>
    intro ms h
    simp only [execToolCalls, Except.ok.injEq] at h
    rw [← h]
    exact ⟨rfl, by simp⟩
  | cons tc rest ih =>
    intro ms h
    simp only [execToolCalls] at h
    cases hr : reg tc.name with
    | none =>
      simp only [hr] at h
      cases hrec : execToolCalls reg rest with
      | error e => simp only [hrec] at h; simp [Except.map] at h
      | ok ms' =>
        simp only [hrec] at h
        simp only [Except.map, Except.ok.injEq] at h
        obtain ⟨h1, h2⟩ := ih ms' hrec
        rw [← h]
        refine ⟨by simp [toolMessage, h1], ?_⟩
        intro x hx
        rcases List.mem_cons.mp hx with rfl | hx
        · rfl
        · exact h2 x hx
    | some f =>
      simp only [hr] at h
      cases hf : f tc.args with
      | error e => simp only [hf] at h; simp at h
      | ok res =>
        simp only [hf] at h
        cases hrec : execToolCalls reg rest with
        | error e => simp only [hrec] at h; simp [Except.map] at h
        | ok ms' =>
          simp only [hrec] at h
          simp only [Except.map, Except.ok.injEq] at h
          obtain ⟨h1, h2⟩ := ih ms' hrec
          rw [← h]
          refine ⟨by simp [toolMessage, h1], ?_⟩
          intro x hx
          rcases List.mem_cons.mp hx with rfl | hx
          · rfl
          · exact h2 x hx

/-- C4: one execution of `node_tools` on a message with `N` tool calls
appends exactly `N` observations in one batch, in request order, the `i`-th
observation's `tool_call_id` being the `i`-th request's `id`; when the
request ids are pairwise distinct so are the correlation ids (no duplicate,
no missing); and every appended message is a `ToolMessage`. -/
theorem claim_C4 (reg : Registry) (s s' : AgentState)
    (h : node_tools reg s = Except.ok s') :
    ∃ obs : List Message,
      s'.messages = s.messages ++ obs ∧
      obs.length = (lastMessage s).tool_calls.length ∧
      obs.map Message.tool_call_id
        = (lastMessage s).tool_calls.map (fun tc => some tc.id) ∧
      (((lastMessage s).tool_calls.map ToolCall.id).Nodup →
        (obs.map Message.tool_call_id).Nodup) ∧
      (∀ x ∈ obs, x.role = Role.tool) := by
  obtain ⟨ms, hex, hs⟩ := node_tools_ok h
  obtain ⟨hids, hroles⟩ := execToolCalls_ids reg _ ms hex
  refine ⟨ms, by rw [hs], ?_, hids, ?_, hroles⟩
  · simpa using congrArg List.length hids
  · intro hnd
    rw [hids]
    have hm : (lastMessage s).tool_calls.map (fun tc => some tc.id)
        = ((lastMessage s).tool_calls.map ToolCall.id).map some := by
      rw [List.map_map]; rfl
    rw [hm]
    exact hnd.map (Option.some_injective _)

/-- C4 witness: the two-request message (one resolvable, one unknown)
yields exactly two correlated observations. -/
theorem claim_C4_witness :
    ∃ obs : List Message,
      stTwoCallsOut.messages = stTwoCalls.messages ++ obs ∧
      obs.length = (lastMessage stTwoCalls).tool_calls.length ∧
      obs.map Message.tool_call_id
        = (lastMessage stTwoCalls).tool_calls.map (fun tc => some tc.id) ∧
      (((lastMessage stTwoCalls).tool_calls.map ToolCall.id).Nodup →
        (obs.map Message.tool_call_id).Nodup) ∧
      (∀ x ∈ obs, x.role = Role.tool) :=
  claim_C4 echoRegistry stTwoCalls stTwoCallsOut rfl

/-! ## Claim C5 -/

theorem execToolCalls_unknown_at (reg : Registry) :
    ∀ (tcs : List ToolCall) (ms : List Message), execToolCalls reg tcs = Except.ok ms →
      ∀ (i : Nat) (hi : i < tcs.length), reg (tcs.get ⟨i, hi⟩).name = none →
      ∃ hj : i < ms.length,
        ms.get ⟨i, hj⟩ = toolMessage ("Unknown tool: " ++ (tcs.get ⟨i, hi⟩).name)
          (tcs.get ⟨i, hi⟩).id := by
  intro tcs
  induction tcs with
  | nil => intro ms _ i hi; exact absurd hi (by simp)
  | cons tc rest ih =>
    intro ms h i hi hu
    simp only [execToolCalls] at h
    cases hr : reg tc.name with
    | none =>
      simp only [hr] at h
      cases hrec : execToolCalls reg rest with
      | error e => simp only [hrec] at h; simp [Except.map] at h
      | ok ms' =>
        simp only [hrec] at h
        simp only [Except.map, Except.ok.injEq] at h
        rw [← h]
        cases i with
        | zero => exact ⟨by simp, rfl⟩
        | succ j =>
          have hj' : j < rest.length := by simpa using hi
          have hu' : reg (rest.get ⟨j, hj'⟩).name = none := hu
          obtain ⟨hj, hget⟩ := ih ms' hrec j hj' hu'
          exact ⟨by simpa using Nat.succ_lt_succ hj, hget⟩
    | some f =>
      simp only [hr] at h
      cases i with
      | zero =>
        have : reg tc.name = none := hu
        rw [hr] at this
        cases this
      | succ j =>
        cases hf : f tc.args with
        | error e => simp only [hf] at h; simp at h
        | ok res =>
          simp only [hf] at h
          cases hrec : execToolCalls reg rest with
          | error e => simp only [hrec] at h; simp [Except.map] at h
          | ok ms' =>
            simp only [hrec] at h
            simp only [Except.map, Except.ok.injEq] at h
            rw [← h]
            have hj' : j < rest.length := by simpa using hi
            have hu' : reg (rest.get ⟨j, hj'⟩).name = none := hu
            obtain ⟨hj, hget⟩ := ih ms' hrec j hj' hu'
            exact ⟨by simpa using Nat.succ_lt_succ hj, hget⟩

theorem execToolCalls_all_unknown (reg : Registry) :
    ∀ tcs : List ToolCall, (∀ tc ∈ tcs, reg tc.name = none) →
      ∃ ms, execToolCalls reg tcs = Except.ok ms := by
  intro tcs
  induction tcs with
  | nil => exact fun _ => ⟨[], rfl⟩
  | cons tc rest ih =>
    intro h
    obtain ⟨ms, hms⟩ := ih (fun x hx => h x (List.mem_cons_of_mem _ hx))
    refine ⟨toolMessage ("Unknown tool: " ++ tc.name) tc.id :: ms, ?_⟩
    simp only [execToolCalls]
    rw [h tc (List.mem_cons_self _ _), hms]
    rfl

/-- C5, counterexample to the claim as stated: for an unresolved request the
observation's text is `"Unknown tool: <name>"`, not
`"unknown action: <name>"`. -/
theorem claim_C5_counterexample :
    execToolCalls emptyRegistry [⟨"ghost", [], "id1"⟩]
      = Except.ok [toolMessage "Unknown tool: ghost" "id1"] ∧
    (toolMessage "Unknown tool: ghost" "id1").content = "Unknown tool: ghost" ∧
    (toolMessage "Unknown tool: ghost" "id1").content ≠ "unknown action: ghost" :=
  ⟨rfl, rfl, by decide⟩

/-- C5 (amended): for every request whose name does not resolve in the
registry (exact match only), the Action Executor produces at that position
an observation reading `"Unknown tool: <name>"` correlated to the request's
`id` without invoking any executable, and if every request of the round is
unresolved `node_tools` still succeeds — the loop continues, it does not
abort. -/
theorem claim_C5 :
    (∀ (reg : Registry) (tcs : List ToolCall) (ms : List Message),
      execToolCalls reg tcs = Except.ok ms →
      ∀ (i : Nat) (hi : i < tcs.length), reg (tcs.get ⟨i, hi⟩).name = none →
      ∃ hj : i < ms.length,
        ms.get ⟨i, hj⟩ = toolMessage ("Unknown tool: " ++ (tcs.get ⟨i, hi⟩).name)
          (tcs.get ⟨i, hi⟩).id) ∧
    (∀ (reg : Registry) (s : AgentState),
      (∀ tc ∈ (lastMessage s).tool_calls, reg tc.name = none) →
      ∃ s', node_tools reg s = Except.ok s') := by
  refine ⟨fun reg tcs ms h => execToolCalls_unknown_at reg tcs ms h, ?_⟩
  intro reg s h
  obtain ⟨ms, hms⟩ := execToolCalls_all_unknown reg _ h
  exact ⟨⟨s.messages ++ ms, s.steps + 1⟩, by unfold node_tools; rw [hms]; rfl⟩

/-- C5 witness: the `ghost` request of the two-call round resolves to
nothing and yields the `Unknown tool` observation at its position; a round
of only unresolved requests still succeeds. -/
theorem claim_C5_witness :
    (∃ hj : 1 < ([toolMessage "echo result" "i1",
        toolMessage "Unknown tool: ghost" "i2"] : List Message).length,
      ([toolMessage "echo result" "i1", toolMessage "Unknown tool: ghost" "i2"]
          : List Message).get ⟨1, hj⟩
        = toolMessage
            ("Unknown tool: " ++ (([⟨"echo", [], "i1"⟩, ⟨"ghost", [], "i2"⟩]
                : List ToolCall).get ⟨1, by decide⟩).name)
            ((([⟨"echo", [], "i1"⟩, ⟨"ghost", [], "i2"⟩]
                : List ToolCall).get ⟨1, by decide⟩).id)) ∧
    (∃ s', node_tools emptyRegistry stTwoCalls = Except.ok s') :=
  ⟨claim_C5.1 echoRegistry [⟨"echo", [], "i1"⟩, ⟨"ghost", [], "i2"⟩]
      [toolMessage "echo result" "i1", toolMessage "Unknown tool: ghost" "i2"]
      rfl 1 (by decide) rfl,
   claim_C5.2 emptyRegistry stTwoCalls (fun tc _ => rfl)⟩

/-! ## Claim C6 -/

theorem pyEqStr_true {v : PyJson} {t : String} (h : pyEqStr v t = true) :
    v = PyJson.str t := by
  cases v <;> simp [pyEqStr] at h
  rw [h]

/-- C6: every router oracle response that does not parse to a valid
`out_of_domain` route — invalid JSON (`parsed = none`) or any JSON whose
`route` field is not the string `out_of_domain` — makes the router fail
open to `in_domain`, so every run under such a response enters the main
loop at the Decision Step (`llm` is the first node executed), not the
refusal path. -/
theorem claim_C6 (parsed : Option PyJson)
    (h : parsed = none ∨ ∀ fields, parsed = some (PyJson.obj fields) →
      jsonGet fields "route" ≠ some (PyJson.str "out_of_domain")) :
    route_domain_llm parsed = "in_domain" ∧
    ∀ (maxSteps : Nat) (oracle : Oracle) (reg : Registry) (u : String),
      (run maxSteps parsed oracle reg u).2.head? = some Node.llm := by
  have hroute : route_domain_llm parsed = "in_domain" := by
    match parsed with
    | none => rfl
    | some PyJson.null => rfl
    | some (PyJson.bool b) => rfl
    | some (PyJson.num n) => rfl
    | some (PyJson.str s) => rfl
    | some (PyJson.arr es) => rfl
    | some (PyJson.obj fields) =>
      rcases h with h | h
      · cases h
      · simp only [route_domain_llm]
        cases hg : jsonGet fields "route" with
        | none => rfl
        | some v =>
          have hv : pyEqStr v "out_of_domain" ≠ true :=
            fun hv => h fields rfl (by rw [hg, pyEqStr_true hv])
          simp [hv]
  refine ⟨hroute, fun m o r u => ?_⟩
  simp only [run]
  rw [if_neg (by rw [hroute]; decide)]
  exact loopT_trace_head m o r _

/-- C6 witness: unparsable router payload (`json.loads` raised), fail-open
to the Decision Step. -/
theorem claim_C6_witness :
    route_domain_llm none = "in_domain" ∧
    (run MAX_STEPS none noToolOracle emptyRegistry "q").2.head? = some Node.llm :=
  ⟨(claim_C6 none (Or.inl rfl)).1,
   (claim_C6 none (Or.inl rfl)).2 MAX_STEPS noToolOracle emptyRegistry "q"⟩

/-! ## Claim C7 -/

/-- C7: when the router classifies the user text `out_of_domain`, the run
appends exactly one message — the fixed refusal — to the initial log and
terminates, and the Decision Step node is never executed (it does not occur
in the trace). -/
theorem claim_C7 (maxSteps : Nat) (parsed : Option PyJson) (oracle : Oracle)
    (reg : Registry) (u : String)
    (h : route_domain_llm parsed = "out_of_domain") :
    run maxSteps parsed oracle reg u
      = (Except.ok ⟨[humanMessage u, outOfDomainMessage], 1⟩, [Node.out_of_domain]) ∧
    Node.llm ∉ (run maxSteps parsed oracle reg u).2 := by
  have h1 : run maxSteps parsed oracle reg u
      = (Except.ok ⟨[humanMessage u, outOfDomainMessage], 1⟩, [Node.out_of_domain]) := by
    simp only [run]
    rw [if_pos h]
    rfl
  refine ⟨h1, ?_⟩
  rw [h1]
  show Node.llm ∉ [Node.out_of_domain]
  decide

/-- C7 witness: a concrete `out_of_domain` classification. -/
theorem claim_C7_witness :
    run MAX_STEPS outParsed noToolOracle emptyRegistry "best pizza in Paris?"
      = (Except.ok ⟨[humanMessage "best pizza in Paris?", outOfDomainMessage], 1⟩,
         [Node.out_of_domain]) ∧
    Node.llm ∉ (run MAX_STEPS outParsed noToolOracle emptyRegistry
      "best pizza in Paris?").2 :=
  claim_C7 MAX_STEPS outParsed noToolOracle emptyRegistry "best pizza in Paris?" rfl

/-! ## Claim C8 -/

theorem execToolCalls_error_propagates (reg : Registry) (tc : ToolCall)
    (f : Executable) (e : String)
    (hf : reg tc.name = some f) (he : f tc.args = Except.error e) :
    ∀ tcs1 tcs2 : List ToolCall,
      (∀ tc' ∈ tcs1, ∀ g, reg tc'.name = some g → ∃ r, g tc'.args = Except.ok r) →
      execToolCalls reg (tcs1 ++ tc :: tcs2) = Except.error e := by
  intro tcs1
  induction tcs1 with
  | nil =>
    intro tcs2 _
    simp only [List.nil_append, execToolCalls, hf, he]
  | cons a rest ih =>
    intro tcs2 hpre
    simp only [List.cons_append, execToolCalls]
    cases hra : reg a.name with
    | none =>
      simp only [hra, List.append_eq]
      rw [ih tcs2 (fun x hx => hpre x (List.mem_cons_of_mem _ hx))]
      rfl
    | some g =>
      obtain ⟨r, hr⟩ := hpre a (List.mem_cons_self _ _) g hra
      simp only [hra, hr, List.append_eq]
      rw [ih tcs2 (fun x hx => hpre x (List.mem_cons_of_mem _ hx))]
      rfl

/-- C8: a resolved request whose executable raises (all requests before it
in the round succeeding or being unknown-name successes) aborts the whole
round — `execToolCalls` propagates the error rather than producing an error
observation — and a run reaching that round terminates as a fatal error,
appending nothing to the log. -/
theorem claim_C8 (reg : Registry) (tc : ToolCall) (f : Executable) (e : String)
    (tcs1 tcs2 : List ToolCall)
    (hf : reg tc.name = some f) (he : f tc.args = Except.error e)
    (hpre : ∀ tc' ∈ tcs1, ∀ g, reg tc'.name = some g → ∃ r, g tc'.args = Except.ok r) :
    execToolCalls reg (tcs1 ++ tc :: tcs2) = Except.error e ∧
    (∀ (maxSteps : Nat) (parsed : Option PyJson) (oracle : Oracle) (u : String),
      route_domain_llm parsed ≠ "out_of_domain" → 1 < maxSteps →
      (oracle [humanMessage u]).tool_calls = tcs1 ++ tc :: tcs2 →
      (run maxSteps parsed oracle reg u).1 = Except.error e) := by
  have hexec := execToolCalls_error_propagates reg tc f e hf he tcs1 tcs2 hpre
  refine ⟨hexec, ?_⟩
  intro m parsed o u hr hm htc
  simp only [run]
  rw [if_neg hr]
  have hcont : route_after_llm m (node_llm o ⟨[humanMessage u], 0⟩) = "continue" := by
    unfold route_after_llm
    rw [if_neg (by simp [node_llm]; omega)]
    rw [if_neg (by
      rw [lastMessage_node_llm, htc]
      simp)]
  have herr : node_tools reg (node_llm o ⟨[humanMessage u], 0⟩) = Except.error e := by
    unfold node_tools
    rw [lastMessage_node_llm, htc, hexec]
    rfl
  rw [loopT_continue_error hcont herr]

/-- C8 witness: the `boom` executable raises and the whole run fails. -/
theorem claim_C8_witness :
    execToolCalls boomRegistry ([] ++ (⟨"boom", [], "b1"⟩ : ToolCall) :: [])
      = Except.error "kaboom" ∧
    (run MAX_STEPS none boomOracle boomRegistry "q").1 = Except.error "kaboom" := by
  have h := claim_C8 boomRegistry ⟨"boom", [], "b1"⟩ boomExec "kaboom" [] []
    rfl rfl (fun tc' h => absurd h (List.not_mem_nil tc'))
  exact ⟨h.1, h.2 MAX_STEPS none boomOracle "q" (by decide) (by decide) rfl⟩

/-! ## Claim C9 -/

/-- C9: `node_out_of_domain` appends exactly one message whose role is
`system` (not `assistant`) and increments `step_count` by exactly 1, so a
rejected run terminates with `step_count = 1`, not `0`. -/
theorem claim_C9 :
    (∀ s : AgentState,
      node_out_of_domain s = ⟨s.messages ++ [outOfDomainMessage], s.steps + 1⟩) ∧
    outOfDomainMessage.role = Role.system ∧
    outOfDomainMessage.role ≠ Role.assistant ∧
    (∀ (maxSteps : Nat) (parsed : Option PyJson) (oracle : Oracle) (reg : Registry)
        (u : String) (sf : AgentState),
      route_domain_llm parsed = "out_of_domain" →
      (run maxSteps parsed oracle reg u).1 = Except.ok sf → sf.steps = 1) := by
  refine ⟨fun s => rfl, rfl, by decide, ?_⟩
  intro m parsed o r u sf h hok
  simp only [run] at hok
  rw [if_pos h] at hok
  simp only [Except.ok.injEq] at hok
  rw [← hok]
  rfl

/-- C9 witness: the rejected-run conclusion applied at a concrete run. -/
theorem claim_C9_witness :
    node_out_of_domain ⟨[humanMessage "hi"], 0⟩
      = ⟨[humanMessage "hi"] ++ [outOfDomainMessage], 0 + 1⟩ ∧
    (⟨[humanMessage "hi", outOfDomainMessage], 1⟩ : AgentState).steps = 1 := by
  refine ⟨claim_C9.1 ⟨[humanMessage "hi"], 0⟩, ?_⟩
  refine claim_C9.2.2.2 MAX_STEPS outParsed noToolOracle emptyRegistry "hi"
    ⟨[humanMessage "hi", outOfDomainMessage], 1⟩ rfl ?_
  simp only [run]
  rfl

/-! ## Claim C10 -/

/-- C10: `nlp_concept_kb_lookup` is invariant under pre-normalizing its
argument with `term.lower().strip()` — the lookup ignores letter case and
surrounding whitespace — and any term whose normalized form is not a key of
the knowledge base yields the JSON error string
`\x7b"error": "concept not found."\x7d` rather than failing. -/
theorem claim_C10 (term : List Nat) :
    nlp_concept_kb_lookup term = nlp_concept_kb_lookup (pyStrip (pyLower term)) ∧
    (kbGet NLP_REFERENCE_KB (pyStrip (pyLower term)) = none →
      nlp_concept_kb_lookup term = conceptNotFound) := by
  constructor
  · unfold nlp_concept_kb_lookup
    rw [pyNormalize_idem]
  · intro h
    unfold nlp_concept_kb_lookup
    simp only [h]

/-- C10 witness: a cased, padded known term and an unknown term. -/
theorem claim_C10_witness :
    nlp_concept_kb_lookup (s2c "  TransFormer ")
      = nlp_concept_kb_lookup (pyStrip (pyLower (s2c "  TransFormer "))) ∧
    nlp_concept_kb_lookup (s2c "quantum") = conceptNotFound :=
  ⟨(claim_C10 (s2c "  TransFormer ")).1,
   (claim_C10 (s2c "quantum")).2 (by decide)⟩

end LangGraphAgent
